import Mathlib

/-!
Verification of the primitive-db record engine (`primitive_db/core.py` and
`primitive_db/parser.py`) against its specification.

The Python code is shallowly embedded: Python scalar values become the
inductive `Value` (Python `None`, reachable through `type_casting`, is
`Value.none`); Python dicts become association lists with first-match lookup
and replace-or-append assignment, which coincides with dict semantics on the
duplicate-free keys the operations maintain; Python exceptions become
`Except DbError`; Python `list.append` mutation is made explicit where a
claim depends on it, by returning the post-call state of the caller's
argument alongside the function result.
-/

/-- Error taxonomy of the engine, following the raise sites in the source. -/
inductive DbError where
  | alreadyExists
  | tableNotFound
  | columnNotFound
  | missingType
  | unsupportedType
  | valueCountMismatch
  | emptyField
  | invalidValue
  | syntaxError
  | missingWhere
  | unexpectedError
  deriving DecidableEq

/-- Python scalar values the engine manipulates: `str`, `int`, `bool`, `None`. -/
inductive Value where
  | str (s : String)
  | int (n : Int)
  | bool (b : Bool)
  | none
  deriving DecidableEq

/-- Numeric view of a Python value: `int` and `bool` are numbers (Python
`bool` is a subclass of `int`, `True == 1` and `False == 0`). -/
def Value.toIntQ : Value → Option Int
  | .int n => some n
  | .bool b => some (if b then 1 else 0)
  | _ => Option.none

/-- Python `==` on the embedded value domain: numbers compare numerically
(so `True == 1`), strings compare as strings, `None` equals only `None`,
and values of different kinds are unequal. -/
def pyEq (a b : Value) : Bool :=
  match a.toIntQ, b.toIntQ with
  | some m, some n => m == n
  | _, _ =>
    match a, b with
    | .str s, .str t => s == t
    | .none, .none => true
    | _, _ => false

/-- A Python dict of scalar values, as an insertion-ordered association list. -/
abbrev PyDict := List (String × Value)

/-- Python dict lookup `d.get(k)` (without default): first matching key. -/
def alistGet {α : Type} (r : List (String × α)) (k : String) : Option α :=
  (r.find? (fun kv => kv.1 == k)).map Prod.snd

/-- Python dict assignment `d[k] = v`: overwrite in place if the key exists,
append at the end otherwise. -/
def alistSet {α : Type} (r : List (String × α)) (k : String) (v : α) :
    List (String × α) :=
  if r.any (fun kv => kv.1 == k) then
    r.map (fun kv => if kv.1 == k then (k, v) else kv)
  else r ++ [(k, v)]

/-- Python `dict.update(s)`: assign every pair of `s` in order. -/
def dictUpdate (r s : PyDict) : PyDict :=
  s.foldl (fun acc kv => alistSet acc kv.1 kv.2) r

/-- An element of a table's row list.  The source guards `isinstance(record,
dict)` in several loops, so a row list may contain non-dict entries. -/
inductive Entry where
  | record (fields : PyDict)
  | notDict (v : Value)
  deriving DecidableEq

deriving instance DecidableEq for Except

/-- The metadata store: table name mapped to its column-spec strings. -/
abbrev Metadata := List (String × List String)

/-- Characters stripped by Python `str.strip()` (ASCII whitespace). -/
def isPySpace (c : Char) : Bool :=
  c == ' ' || c == '\t' || c == '\n' || c == '\r' || c.toNat == 11 || c.toNat == 12

/-- Python `str.strip()` on ASCII text. -/
def pyStrip (s : String) : String :=
  String.mk (((s.toList.dropWhile isPySpace).reverse.dropWhile isPySpace).reverse)

/-- Python `str.lower()` on ASCII text. -/
def pyLower (s : String) : String :=
  String.mk (s.toList.map Char.toLower)

/-- Python `str.upper()` on ASCII text. -/
def pyUpper (s : String) : String :=
  String.mk (s.toList.map Char.toUpper)

/-- Tail of a Python integer literal after its first digit: digits with
single underscores allowed between digits. -/
def digitsTail : List Char → Bool
  | [] => true
  | '_' :: c :: rest => c.isDigit && digitsTail rest
  | c :: rest => c.isDigit && digitsTail rest

/-- A non-empty run of digits with single underscores between digits, the
digit-part grammar accepted by Python `int()`. -/
def digitsOk : List Char → Bool
  | [] => false
  | c :: rest => c.isDigit && digitsTail rest

/-- Value of a digit character. -/
def digVal (c : Char) : Nat := c.toNat - 48

/-- Numeric value of a digit run, ignoring underscores. -/
def natVal (l : List Char) : Nat :=
  (l.filter (fun c => c != '_')).foldl (fun a c => a * 10 + digVal c) 0

/-- Python `int(s)` on an already-stripped ASCII string: optional sign, then
a digit run with optional single underscores between digits. -/
def pyParseInt (s : String) : Option Int :=
  match s.toList with
  | '+' :: rest => if digitsOk rest then some ((natVal rest : Int)) else Option.none
  | '-' :: rest => if digitsOk rest then some (-(natVal rest : Int)) else Option.none
  | l => if digitsOk l then some ((natVal l : Int)) else Option.none

/-- Embeds `type_casting` from `core.py`.  Note the `bool` arm: in the source
the `raise` sits inside an `except` handler that only fires when `.strip()`
itself raises, which a string argument never does; a string that is neither
`"true"` nor `"false"` therefore falls out of both `if`s and the function
returns Python `None`. -/
def type_casting (column_type : String) (value : String) : Except DbError Value :=
  match column_type with
  | "str" => .ok (.str value)
  | "int" =>
    match pyParseInt (pyStrip value) with
    | some n => .ok (.int n)
    | Option.none => .error .invalidValue
  | "bool" =>
    if pyLower (pyStrip value) = "true" then .ok (.bool true)
    else if pyLower (pyStrip value) = "false" then .ok (.bool false)
    else .ok Value.none
  | _ => .error .unsupportedType

/-- The conjunction `all(record.get(key) == value ...)` used by `select`,
`update` and `delete`: an absent key reads as Python `None`. -/
def matchesWhere (r : PyDict) (w : PyDict) : Bool :=
  w.all (fun kv => pyEq ((alistGet r kv.1).getD Value.none) kv.2)

/-- Whether a row-list entry matches a where-clause: non-dict entries never
match (the source skips them before evaluating the condition). -/
def entryMatches (e : Entry) (w : PyDict) : Bool :=
  match e with
  | .record r => matchesWhere r w
  | .notDict _ => false

/-- Python `s.partition(':')` restricted to the name/type components the
source uses: text before the first colon, and all text after it (empty when
there is no colon at all). -/
def partitionColon (s : String) : String × String :=
  match s.toList.dropWhile (fun c => c != ':') with
  | [] => (s, "")
  | _ :: after => (String.mk (s.toList.takeWhile (fun c => c != ':')), String.mk after)

/-- Python `s.split(':')[0]` and `s.split(':')[1]`: the first two
colon-separated segments; `none` when there is no colon, where the source's
indexing raises `IndexError` (an unexpected error under `handle_db_errors`). -/
def pySplitColon2 (s : String) : Option (String × String) :=
  match s.toList.dropWhile (fun c => c != ':') with
  | [] => Option.none
  | _ :: after =>
    some (String.mk (s.toList.takeWhile (fun c => c != ':')),
          String.mk (after.takeWhile (fun c => c != ':')))

/-- Modelled from the spec: `constants.py`, which defines `VALID_TYPES`, is
not among the provided sources.  The spec fixes the column-type enumeration
to exactly string, integer and boolean, spelled `str`, `int`, `bool` in
column specs (scenario `create_table users name:str age:int` and the
`type_casting` match arms). -/
def VALID_TYPES : List String := ["str", "int", "bool"]

namespace PrimitiveDb

/-- The column-normalization loop of `create_table`: validates each
`name:type` spec, collects non-ID columns in order, and remembers the most
recent ID-named column (case-insensitive) as the identity column. -/
def normalizeColumnsAux :
    List String → List String → Bool → Option String →
    Except DbError (List String × Bool × Option String)
  | [], normalized, has_id, id_column => .ok (normalized, has_id, id_column)
  | column :: rest, normalized, has_id, id_column =>
    let p := partitionColon column
    if p.2 = "" then .error .missingType
    else if ¬ VALID_TYPES.contains p.2 then .error .unsupportedType
    else if pyUpper p.1 = "ID" then
      normalizeColumnsAux rest normalized true (some (p.1 ++ ":" ++ p.2))
    else
      normalizeColumnsAux rest (normalized ++ [p.1 ++ ":" ++ p.2]) has_id id_column

/-- Embeds `create_table` from `core.py`. -/
def create_table (metadata : Metadata) (table_name : String)
    (columns : List String) : Except DbError Metadata :=
  if (alistGet metadata table_name).isSome then .error .alreadyExists
  else
    match normalizeColumnsAux columns [] false Option.none with
    | .error e => .error e
    | .ok (normalized, has_id, id_column) =>
      let normalized :=
        if has_id then id_column.getD "" :: normalized else "ID:int" :: normalized
      .ok (alistSet metadata table_name normalized)

/-- The dict comprehension at the top of `insert` building the column-type
map with `split(':')`; duplicate names collapse by dict assignment. -/
def buildColumnsAux :
    List String → List (String × String) → Except DbError (List (String × String))
  | [], acc => .ok acc
  | c :: rest, acc =>
    match pySplitColon2 c with
    | Option.none => .error .unexpectedError
    | some (n, t) => buildColumnsAux rest (alistSet acc n t)

/-- The IDs collected by `insert` before assigning a new identity: the `ID`
field of every dict entry that has one. -/
def idsOf (td : List Entry) : List Value :=
  td.filterMap (fun e =>
    match e with
    | .record r => alistGet r "ID"
    | .notDict _ => Option.none)

/-- Maximum of a list of integers (meaningful for non-empty lists). -/
def listMaxInt (ns : List Int) : Int := ns.foldl max (ns.headD 0)

/-- Numeric views of a list of Python values: `none` as soon as one value is
non-numeric, where Python `max` raises `TypeError`. -/
def optionMapToInt : List Value → Option (List Int)
  | [] => some []
  | v :: rest =>
    match v.toIntQ, optionMapToInt rest with
    | some n, some ns => some (n :: ns)
    | _, _ => Option.none

/-- The identity computation of `insert`: 1 for a missing or empty row list,
else `max(ids) + 1` over the collected IDs (1 if none were collected).
Python `max` raises `TypeError` on a mix of numbers and non-numbers; `bool`
participates numerically. -/
def newIdCalc (table_data : Option (List Entry)) : Except DbError Int :=
  match table_data with
  | Option.none => .ok 1
  | some td =>
    if td.isEmpty then .ok 1
    else
      let ids := idsOf td
      if ids.isEmpty then .ok 1
      else
        match optionMapToInt ids with
        | some ns => .ok (listMaxInt ns + 1)
        | Option.none => .error .unexpectedError

/-- The record-building loop of `insert`: casts each value against its
column's declared type and assigns it into the record; the first cast
failure aborts. -/
def buildRecord :
    List ((String × String) × String) → PyDict → Except DbError PyDict
  | [], record => .ok record
  | ((column_name, column_type), value) :: rest, record =>
    match type_casting column_type value with
    | .error e => .error e
    | .ok tv => buildRecord rest (alistSet record column_name tv)

/-- Embeds `insert` from `core.py`.  The first component is the function's
return value; the second is the state of the caller's `table_data` argument
after the call, made explicit because the source appends to that list in
place (`table_data.append(record)`) on success. -/
def insert (metadata : Metadata) (table_name : String) (values : List String)
    (table_data : Option (List Entry)) :
    Except DbError (List Entry) × Option (List Entry) :=
  match alistGet metadata table_name with
  | Option.none => (.error .tableNotFound, table_data)
  | some columns_list =>
    match buildColumnsAux columns_list [] with
    | .error e => (.error e, table_data)
    | .ok columns =>
      if (values.length : Int) ≠ (columns_list.length : Int) - 1 then
        (.error .valueCountMismatch, table_data)
      else if values.any (fun v => pyStrip v == "") then
        (.error .emptyField, table_data)
      else
        match newIdCalc table_data with
        | .error e => (.error e, table_data)
        | .ok new_id =>
          match buildRecord ((columns.drop 1).zip values) [("ID", Value.int new_id)] with
          | .error e => (.error e, table_data)
          | .ok record =>
            match table_data with
            | Option.none => (.ok [Entry.record record], Option.none)
            | some td =>
              (.ok (td ++ [Entry.record record]), some (td ++ [Entry.record record]))

/-- The filtering loop of `select`: non-dict entries are skipped, dict
entries are kept when they match the where-clause. -/
def selectLoop : List Entry → PyDict → List Entry
  | [], _ => []
  | e :: rest, w =>
    match e with
    | .notDict _ => selectLoop rest w
    | .record r => if matchesWhere r w then e :: selectLoop rest w else selectLoop rest w

/-- Embeds `select` from `core.py`. -/
def select (table_data : List Entry) (where_clause : Option PyDict) : List Entry :=
  match where_clause with
  | Option.none => if table_data.isEmpty then [] else table_data
  | some w => selectLoop table_data w

/-- The rebuild loop of `update`: matching dict entries are replaced by a
copy updated with the set-clause, everything else passes through. -/
def updateLoop : List Entry → PyDict → PyDict → List Entry
  | [], _, _ => []
  | e :: rest, s, w =>
    (match e with
     | .notDict _ => e
     | .record r =>
       if matchesWhere r w then Entry.record (dictUpdate r s) else e) ::
      updateLoop rest s w

/-- Embeds `update` from `core.py`. -/
def update (table_data : List Entry) (set_clause where_clause : PyDict) :
    List Entry :=
  if table_data.isEmpty then [] else updateLoop table_data set_clause where_clause

/-- The rebuild loop of `delete`: matching dict entries are dropped,
everything else (including non-dict entries) is kept. -/
def deleteLoop : List Entry → PyDict → List Entry
  | [], _ => []
  | e :: rest, w =>
    match e with
    | .notDict _ => e :: deleteLoop rest w
    | .record r => if matchesWhere r w then deleteLoop rest w else e :: deleteLoop rest w

/-- Embeds `delete` from `core.py`. -/
def delete (table_data : List Entry) (where_clause : PyDict) : List Entry :=
  if table_data.isEmpty then [] else deleteLoop table_data where_clause

/-- The `where`-scanning loop of `parse_set_clause`: index of the first
token from position `i` onward whose lower-casing is `where`. -/
def findWhereAux : List String → Nat → Option Nat
  | [], _ => Option.none
  | p :: rest, i => if pyLower p = "where" then some i else findWhereAux rest (i + 1)

/-- The column-type map built by the parser with `partition(':')`. -/
def buildColumnTypesAux : List String → List (String × String) → List (String × String)
  | [], acc => acc
  | c :: rest, acc =>
    let p := partitionColon c
    buildColumnTypesAux rest (alistSet acc p.1 p.2)

/-- Embeds `parse_set_clause` from `parser.py`.  Out-of-range indexing is
rendered with a default value; every such access is guarded by the length
checks the source performs first. -/
def parse_set_clause (parts : List String) (start_idx : Nat) (metadata : Metadata)
    (table_name : String) : Except DbError PyDict :=
  if start_idx ≥ parts.length ∨ pyLower (parts.getD start_idx "") ≠ "set" then
    .error .syntaxError
  else
    match findWhereAux (parts.drop (start_idx + 1)) (start_idx + 1) with
    | Option.none => .error .missingWhere
    | some where_idx =>
      if where_idx - start_idx < 4 then .error .syntaxError
      else if parts.getD (start_idx + 2) "" ≠ "=" then .error .syntaxError
      else
        match alistGet metadata table_name with
        | Option.none => .error .tableNotFound
        | some columns_list =>
          match alistGet (buildColumnTypesAux columns_list []) (parts.getD (start_idx + 1) "") with
          | Option.none => .error .columnNotFound
          | some t =>
            match type_casting t (parts.getD (start_idx + 3) "") with
            | .error e => .error e
            | .ok tv => .ok [(parts.getD (start_idx + 1) "", tv)]

/-- Whether a column spec names the identity column (case-insensitive). -/
def isIdSpec (c : String) : Bool := pyUpper (partitionColon c).1 == "ID"

/-- The integer identity of a row-list entry, when it is a dict entry whose
`ID` field holds an integer. -/
def entryIdInt (e : Entry) : Option Int :=
  match e with
  | .record r =>
    match alistGet r "ID" with
    | some (.int n) => some n
    | _ => Option.none
  | .notDict _ => Option.none

lemma split_colon_eq {ch : Char} {after : List Char} :
    ∀ l : List Char, l.dropWhile (fun c => c != ':') = ch :: after →
      l.takeWhile (fun c => c != ':') ++ ch :: after = l ∧ ch = ':' := by
  intro l
  induction l with
  | nil => intro h; simp [List.dropWhile] at h
  | cons a rest ih =>
    intro h
    rw [List.dropWhile_cons] at h
    by_cases ha : (a != ':') = true
    · rw [if_pos (by simpa using ha)] at h
      have hr := ih h
      rw [List.takeWhile_cons, if_pos (by simpa using ha)]
      exact ⟨by rw [List.cons_append, hr.1], hr.2⟩
    · rw [if_neg (by simpa using ha)] at h
      rw [List.takeWhile_cons, if_neg (by simpa using ha)]
      obtain ⟨h1, h2⟩ := List.cons.inj h
      refine ⟨by rw [List.nil_append, h1, h2], ?_⟩
      simp only [bne_iff_ne, ne_eq, not_not] at ha
      rw [← h1, ha]

lemma partitionColon_rt {c : String} (h : (partitionColon c).2 ≠ "") :
    (partitionColon c).1 ++ ":" ++ (partitionColon c).2 = c := by
  unfold partitionColon at h ⊢
  cases hd : c.toList.dropWhile (fun x => x != ':') with
  | nil =>
    rw [hd] at h
    simp at h
  | cons ch after =>
    dsimp only at h ⊢
    obtain ⟨hs1, hs2⟩ := split_colon_eq c.toList hd
    subst hs2
    apply String.ext
    simp only [String.data_append]
    rw [List.append_assoc, List.singleton_append]
    exact hs1

lemma alistGet_set_self {α : Type} (r : List (String × α)) (k : String) (v : α) :
    alistGet (alistSet r k v) k = some v := by
  induction r with
  | nil => simp [alistGet, alistSet, List.find?]
  | cons kv rest ih =>
    unfold alistSet
    by_cases h1 : (kv.1 == k) = true
    · rw [if_pos (by simp [List.any_cons, h1])]
      rw [List.map_cons, if_pos h1]
      simp [alistGet, List.find?]
    · by_cases h2 : rest.any (fun x => x.1 == k) = true
      · rw [if_pos (by simp [List.any_cons, h2])]
        rw [List.map_cons, if_neg h1]
        have hset : alistSet rest k v =
            rest.map (fun x => if x.1 == k then (k, v) else x) := by
          unfold alistSet; rw [if_pos h2]
        unfold alistGet at ih ⊢
        rw [List.find?_cons_of_neg _ (by simpa using h1)]
        rw [hset] at ih
        exact ih
      · rw [if_neg (by simp [List.any_cons]; exact ⟨by simpa using h1, by simpa using h2⟩)]
        have hset : alistSet rest k v = rest ++ [(k, v)] := by
          unfold alistSet; rw [if_neg (by simpa using h2)]
        unfold alistGet at ih ⊢
        rw [List.cons_append, List.find?_cons_of_neg _ (by simpa using h1)]
        rw [hset] at ih
        exact ih

lemma getLast?_cons_shift (l : List String) (c : String) (idc : Option String) :
    (match (c :: l).getLast? with | some d => some d | Option.none => idc) =
      (match l.getLast? with | some d => some d | Option.none => some c) := by
  cases l with
  | nil => simp
  | cons b bs =>
    rw [List.getLast?_cons_cons]
    cases hb : (b :: bs).getLast? with
    | some d => rfl
    | none => rw [List.getLast?_eq_none_iff] at hb; cases hb

lemma normAux_shape :
    ∀ (cols norm : List String) (hid : Bool) (idc : Option String)
      (res : List String × Bool × Option String),
      normalizeColumnsAux cols norm hid idc = .ok res →
      res.1 = norm ++ cols.filter (fun c => !isIdSpec c) ∧
      res.2.1 = (hid || cols.any (fun c => isIdSpec c)) ∧
      res.2.2 = (match (cols.filter (fun c => isIdSpec c)).getLast? with
        | some c => some c
        | Option.none => idc) := by
  intro cols
  induction cols with
  | nil =>
    intro norm hid idc res h
    simp only [normalizeColumnsAux] at h
    cases h
    simp
  | cons c rest ih =>
    intro norm hid idc res h
    simp only [normalizeColumnsAux] at h
    split_ifs at h with h1 h2 h3
    · -- identity-named column: remembered as the id column, not collected
      have hrt : (partitionColon c).1 ++ ":" ++ (partitionColon c).2 = c :=
        partitionColon_rt h1
      have hspec : isIdSpec c = true := by
        simp only [isIdSpec, beq_iff_eq]
        exact h3
      obtain ⟨e1, e2, e3⟩ := ih _ _ _ _ h
      rw [hrt] at e3
      refine ⟨?_, ?_, ?_⟩
      · rw [e1, List.filter_cons]; simp [hspec]
      · rw [e2, List.any_cons]; simp [hspec]
      · rw [e3, List.filter_cons]
        simp only [hspec, if_true]
        exact (getLast?_cons_shift (List.filter (fun c => isIdSpec c) rest) c idc).symm
    · -- ordinary column: appended to the running list
      have hrt : (partitionColon c).1 ++ ":" ++ (partitionColon c).2 = c :=
        partitionColon_rt h1
      have hspec : isIdSpec c = false := by
        simp only [isIdSpec, beq_eq_false_iff_ne, ne_eq]
        exact h3
      obtain ⟨e1, e2, e3⟩ := ih _ _ _ _ h
      rw [hrt] at e1
      refine ⟨?_, ?_, ?_⟩
      · rw [e1, List.filter_cons]; simp [hspec, List.append_assoc]
      · rw [e2, List.any_cons]; simp [hspec]
      · rw [e3, List.filter_cons]; simp [hspec]

lemma create_table_ok_shape (m : Metadata) (t : String) (cols : List String)
    (m2 : Metadata) (h : create_table m t cols = .ok m2) :
    alistGet m2 t =
      some (((cols.filter (fun c => isIdSpec c)).getLast?.getD "ID:int") ::
        cols.filter (fun c => !isIdSpec c)) := by
  unfold create_table at h
  split_ifs at h with hex
  cases hn : normalizeColumnsAux cols [] false Option.none with
  | error e => rw [hn] at h; exact Except.noConfusion h
  | ok res =>
    rw [hn] at h
    obtain ⟨r1, hid, idc⟩ := res
    obtain ⟨e1, e2, e3⟩ := normAux_shape cols [] false Option.none _ hn
    simp only at e1 e2 e3
    rw [List.nil_append] at e1
    dsimp only at h
    subst e1
    subst e2
    injection h with h2
    subst h2
    rw [alistGet_set_self]
    simp only [Bool.false_or]
    cases hany : cols.any (fun c => isIdSpec c) with
    | true =>
      have hne : cols.filter (fun c => isIdSpec c) ≠ [] := by
        intro hnil
        rw [List.filter_eq_nil_iff] at hnil
        rw [List.any_eq_true] at hany
        obtain ⟨x, hx, hpx⟩ := hany
        exact absurd hpx (by simpa using hnil x hx)
      cases hlast : (cols.filter (fun c => isIdSpec c)).getLast? with
      | none => rw [List.getLast?_eq_none_iff] at hlast; exact absurd hlast hne
      | some d =>
        rw [hlast] at e3
        simp only at e3
        subst e3
        simp
    | false =>
      have hnil : cols.filter (fun c => isIdSpec c) = [] := by
        rw [List.filter_eq_nil_iff]
        intro x hx
        rw [List.any_eq_false] at hany
        simpa using hany x hx
      rw [hnil] at e3 ⊢
      simp

lemma insert_shape (m : Metadata) (t : String) (vs : List String)
    (td : Option (List Entry)) :
    (∃ e, insert m t vs td = (.error e, td)) ∨
    (∃ cl cols nid rec, alistGet m t = some cl ∧
      buildColumnsAux cl [] = .ok cols ∧
      newIdCalc td = .ok nid ∧
      buildRecord ((cols.drop 1).zip vs) [("ID", Value.int nid)] = .ok rec ∧
      insert m t vs td =
        (match td with
          | Option.none => (.ok [Entry.record rec], Option.none)
          | some l => (.ok (l ++ [Entry.record rec]), some (l ++ [Entry.record rec])))) := by
  unfold insert
  cases hg : alistGet m t with
  | none => exact Or.inl ⟨.tableNotFound, rfl⟩
  | some cl =>
    dsimp only
    cases hb : buildColumnsAux cl [] with
    | error e => exact Or.inl ⟨e, rfl⟩
    | ok cols =>
      dsimp only
      split_ifs with hcount hempty
      · exact Or.inl ⟨.valueCountMismatch, rfl⟩
      · exact Or.inl ⟨.emptyField, rfl⟩
      · cases hn : newIdCalc td with
        | error e => exact Or.inl ⟨e, rfl⟩
        | ok nid =>
          dsimp only
          cases hr : buildRecord ((cols.drop 1).zip vs) [("ID", Value.int nid)] with
          | error e => exact Or.inl ⟨e, rfl⟩
          | ok rec =>
            dsimp only
            cases td with
            | none => exact Or.inr ⟨cl, cols, nid, rec, rfl, hb, rfl, hr, rfl⟩
            | some l => exact Or.inr ⟨cl, cols, nid, rec, rfl, hb, rfl, hr, rfl⟩

lemma buildRecord_error_of_mem :
    ∀ (pairs : List ((String × String) × String)) (r0 : PyDict),
      (∃ p ∈ pairs, ∃ e, type_casting p.1.2 p.2 = .error e) →
      ∃ e2, buildRecord pairs r0 = .error e2 := by
  intro pairs
  induction pairs with
  | nil =>
    intro r0 h
    obtain ⟨p, hp, _⟩ := h
    simp at hp
  | cons q rest ih =>
    intro r0 h
    obtain ⟨⟨qn, qt⟩, qv⟩ := q
    obtain ⟨p, hp, e, he⟩ := h
    simp only [buildRecord]
    cases hc : type_casting qt qv with
    | error e3 => exact ⟨e3, rfl⟩
    | ok tv =>
      dsimp only
      apply ih
      rcases List.mem_cons.mp hp with hq | hq
      · subst hq
        rw [hc] at he
        exact Except.noConfusion he
      · exact ⟨p, hq, e, he⟩

lemma foldl_max_spec (ns : List Int) :
    ∀ a : Int, (ns.foldl max a = a ∨ ns.foldl max a ∈ ns) ∧
      a ≤ ns.foldl max a ∧ ∀ k ∈ ns, k ≤ ns.foldl max a := by
  induction ns with
  | nil => intro a; simp
  | cons b rest ih =>
    intro a
    rw [List.foldl_cons]
    obtain ⟨ih1, ih2, ih3⟩ := ih (max a b)
    refine ⟨?_, ?_, ?_⟩
    · rcases ih1 with h | h
      · rcases max_choice a b with hm | hm
        · left; rw [h, hm]
        · right; rw [h, hm]; exact List.mem_cons_self b rest
      · right; exact List.mem_cons_of_mem b h
    · exact le_trans (le_max_left a b) ih2
    · intro k hk
      rcases List.mem_cons.mp hk with hk | hk
      · rw [hk]; exact le_trans (le_max_right a b) ih2
      · exact ih3 k hk

lemma listMaxInt_spec (ns : List Int) (h : ns ≠ []) :
    listMaxInt ns ∈ ns ∧ ∀ k ∈ ns, k ≤ listMaxInt ns := by
  unfold listMaxInt
  obtain ⟨m1, _, m3⟩ := foldl_max_spec ns (ns.headD 0)
  refine ⟨?_, m3⟩
  rcases m1 with hm | hm
  · rw [hm]
    cases ns with
    | nil => exact absurd rfl h
    | cons x xs => simp
  · exact hm

lemma idsOf_ints :
    ∀ td : List Entry, (∀ e ∈ td, (entryIdInt e).isSome = true) →
      ∃ ns : List Int, optionMapToInt (idsOf td) = some ns ∧
        (∀ k : Int, k ∈ ns ↔ ∃ e ∈ td, entryIdInt e = some k) ∧
        (idsOf td = [] ↔ td = []) := by
  intro td
  induction td with
  | nil => intro hwf; exact ⟨[], rfl, by simp, by simp [idsOf]⟩
  | cons e rest ih =>
    intro hwf
    have hhead := hwf e (List.mem_cons_self e rest)
    obtain ⟨ns, hns, hiff, _⟩ := ih (fun x hx => hwf x (List.mem_cons_of_mem e hx))
    cases e with
    | notDict v => simp [entryIdInt] at hhead
    | record r =>
      cases hid : alistGet r "ID" with
      | none => simp [entryIdInt, hid] at hhead
      | some v =>
        cases v with
        | str s => simp [entryIdInt, hid] at hhead
        | bool b => simp [entryIdInt, hid] at hhead
        | none => simp [entryIdInt, hid] at hhead
        | int n =>
          have hcons : idsOf (Entry.record r :: rest) = Value.int n :: idsOf rest := by
            simp [idsOf, List.filterMap_cons, hid]
          refine ⟨n :: ns, ?_, ?_, ?_⟩
          · rw [hcons]
            simp [optionMapToInt, Value.toIntQ, hns]
          · intro k
            constructor
            · intro hk
              rcases List.mem_cons.mp hk with hk | hk
              · subst hk
                exact ⟨Entry.record r, List.mem_cons_self _ _,
                  by simp [entryIdInt, hid]⟩
              · obtain ⟨e2, he2, hv⟩ := (hiff k).mp hk
                exact ⟨e2, List.mem_cons_of_mem _ he2, hv⟩
            · rintro ⟨e2, he2, hv⟩
              rcases List.mem_cons.mp he2 with he2 | he2
              · subst he2
                simp only [entryIdInt, hid] at hv
                injection hv with hv
                exact hv ▸ List.mem_cons_self _ _
              · exact List.mem_cons_of_mem _ ((hiff k).mpr ⟨e2, he2, hv⟩)
          · rw [hcons]; simp

lemma newIdCalc_spec (td : List Entry)
    (hwf : ∀ e ∈ td, (entryIdInt e).isSome = true) (nid : Int)
    (hn : newIdCalc (some td) = .ok nid) :
    (td = [] → nid = 1) ∧
    (td ≠ [] → (∃ e ∈ td, entryIdInt e = some (nid - 1)) ∧
      ∀ e ∈ td, ∀ k : Int, entryIdInt e = some k → k ≤ nid - 1) := by
  obtain ⟨ns, hns, hiff, hemp⟩ := idsOf_ints td hwf
  constructor
  · intro hnil
    subst hnil
    simp [newIdCalc] at hn
    exact hn.symm
  · intro hne
    have hids : idsOf td ≠ [] := fun hc => hne (hemp.mp hc)
    have hnsne : ns ≠ [] := by
      intro hc
      subst hc
      cases hcons : idsOf td with
      | nil => exact hids hcons
      | cons v vs =>
        rw [hcons] at hns
        rcases h1 : v.toIntQ with _ | n <;>
          rcases h2 : optionMapToInt vs with _ | ns2 <;>
            simp [optionMapToInt, h1, h2] at hns
    simp only [newIdCalc] at hn
    rw [if_neg (by simpa using hne)] at hn
    rw [if_neg (by simpa using hids)] at hn
    rw [hns] at hn
    dsimp only at hn
    injection hn with hn
    obtain ⟨hmem, hbound⟩ := listMaxInt_spec ns hnsne
    constructor
    · obtain ⟨e2, he2, hv⟩ := (hiff (listMaxInt ns)).mp hmem
      refine ⟨e2, he2, ?_⟩
      rw [hv]
      congr 1
      omega
    · intro e2 he2 k hk
      have hkns : k ∈ ns := (hiff k).mpr ⟨e2, he2, hk⟩
      have := hbound k hkns
      omega

lemma alistGet_map_set_ne {α : Type} (r : List (String × α)) (k1 k : String)
    (v : α) (hne : (k1 == k) = false) :
    alistGet (r.map (fun kv => if kv.1 == k1 then (k1, v) else kv)) k =
      alistGet r k := by
  induction r with
  | nil => rfl
  | cons kv rest ih =>
    by_cases h : (kv.1 == k1) = true
    · have hk1 : kv.1 = k1 := by simpa using h
      have hkk : (kv.1 == k) = false := by rw [hk1]; exact hne
      unfold alistGet at ih ⊢
      rw [List.map_cons, if_pos h,
        List.find?_cons_of_neg (p := fun x : String × α => x.1 == k) _ (by simp [hne]),
        List.find?_cons_of_neg (p := fun x : String × α => x.1 == k) _ (by simp [hkk])]
      exact ih
    · unfold alistGet at ih ⊢
      rw [List.map_cons, if_neg h]
      by_cases hk : (kv.1 == k) = true
      · rw [List.find?_cons_of_pos (p := fun x : String × α => x.1 == k) _ hk,
          List.find?_cons_of_pos (p := fun x : String × α => x.1 == k) _ hk]
      · rw [List.find?_cons_of_neg (p := fun x : String × α => x.1 == k) _ hk,
          List.find?_cons_of_neg (p := fun x : String × α => x.1 == k) _ hk]
        exact ih

lemma alistGet_append_single_ne {α : Type} (r : List (String × α))
    (k1 k : String) (v : α) (hne : (k1 == k) = false) :
    alistGet (r ++ [(k1, v)]) k = alistGet r k := by
  induction r with
  | nil =>
    unfold alistGet
    rw [List.nil_append,
      List.find?_cons_of_neg (p := fun x : String × α => x.1 == k) _ (by simp [hne])]
  | cons kv rest ih =>
    unfold alistGet at ih ⊢
    rw [List.cons_append]
    by_cases hk : (kv.1 == k) = true
    · rw [List.find?_cons_of_pos (p := fun x : String × α => x.1 == k) _ hk,
        List.find?_cons_of_pos (p := fun x : String × α => x.1 == k) _ hk]
    · rw [List.find?_cons_of_neg (p := fun x : String × α => x.1 == k) _ hk,
        List.find?_cons_of_neg (p := fun x : String × α => x.1 == k) _ hk]
      exact ih

lemma alistGet_set_ne {α : Type} (r : List (String × α)) (k1 k : String)
    (v : α) (hne : (k1 == k) = false) :
    alistGet (alistSet r k1 v) k = alistGet r k := by
  unfold alistSet
  split_ifs with h
  · exact alistGet_map_set_ne r k1 k v hne
  · exact alistGet_append_single_ne r k1 k v hne

lemma buildRecord_preserves :
    ∀ (pairs : List ((String × String) × String)) (r0 r : PyDict) (k : String),
      (∀ q ∈ pairs, (q.1.1 == k) = false) →
      buildRecord pairs r0 = .ok r →
      alistGet r k = alistGet r0 k := by
  intro pairs
  induction pairs with
  | nil =>
    intro r0 r k _ h
    injection h with h
    subst h
    rfl
  | cons q rest ih =>
    intro r0 r k hk h
    obtain ⟨⟨qn, qt⟩, qv⟩ := q
    simp only [buildRecord] at h
    cases hc : type_casting qt qv with
    | error e => rw [hc] at h; exact Except.noConfusion h
    | ok tv =>
      rw [hc] at h
      dsimp only at h
      have h1 := ih (alistSet r0 qn tv) r k
        (fun q hq => hk q (List.mem_cons_of_mem _ hq)) h
      rw [h1]
      exact alistGet_set_ne r0 qn k tv (hk _ (List.mem_cons_self _ _))

end PrimitiveDb

/-- C2: the spec requires `boolean` casting to trim and case-fold, accept
exactly true/false, and fail with `InvalidValue` on any other content.  The
code matches the spec on true/false, but for any other string it silently
returns Python `None` instead of an error: the `raise` in the source sits in
an `except` handler that a string argument can never trigger. -/
theorem type_casting_bool_silent_none :
    type_casting "bool" " True " = .ok (.bool true) ∧
    type_casting "bool" "FALSE" = .ok (.bool false) ∧
    type_casting "bool" "yes" = .ok Value.none :=
  ⟨by decide, by decide, by decide⟩

/-- C1 counterexample: `create_table` with the caller-supplied column spec
`ID:str` succeeds and places `ID:str` first, so the first column's declared
type is `str`, not an integer type. -/
theorem create_table_id_not_int_counterexample :
    PrimitiveDb.create_table [] "t" ["ID:str"] = .ok [("t", ["ID:str"])] ∧
    (partitionColon "ID:str").2 = "str" ∧
    ("str" : String) ≠ "int" :=
  ⟨by decide, by decide, by decide⟩

/-- C1 (amended): a successful `create_table` yields a schema whose first
column is the synthetic `ID:int` when the caller supplied no ID-named
column; when ID-named columns were supplied, the first column is the last
such spec with its declared (not necessarily integer) type. -/
theorem create_table_first_column (m : Metadata) (t : String)
    (cols : List String) (m2 : Metadata)
    (h : PrimitiveDb.create_table m t cols = .ok m2) :
    ∃ hd rest, alistGet m2 t = some (hd :: rest) ∧
      ((∀ c ∈ cols, PrimitiveDb.isIdSpec c = false) → hd = "ID:int") ∧
      (∀ c, (cols.filter (fun x => PrimitiveDb.isIdSpec x)).getLast? = some c →
        hd = c) := by
  have hs := PrimitiveDb.create_table_ok_shape m t cols m2 h
  refine ⟨_, _, hs, ?_, ?_⟩
  · intro hnone
    have hnil : cols.filter (fun x => PrimitiveDb.isIdSpec x) = [] :=
      List.filter_eq_nil_iff.mpr (fun x hx => by simp [hnone x hx])
    rw [hnil]
    rfl
  · intro c hc
    rw [hc]
    rfl

/-- C1 witness: instantiates the amended first-column theorem on a table
with two ordinary columns. -/
theorem create_table_first_column_witness :
    ∃ hd rest,
      alistGet [("users", ["ID:int", "name:str", "age:int"])] "users" =
        some (hd :: rest) ∧
      ((∀ c ∈ ["name:str", "age:int"], PrimitiveDb.isIdSpec c = false) →
        hd = "ID:int") ∧
      (∀ c, (["name:str", "age:int"].filter
          (fun x => PrimitiveDb.isIdSpec x)).getLast? = some c → hd = c) :=
  create_table_first_column [] "users" ["name:str", "age:int"]
    [("users", ["ID:int", "name:str", "age:int"])] (by decide)

/-- C10: on success, `create_table` keeps exactly the last ID-named column
spec (at position 0, with its declared type, defaulting to `ID:int` when
none was supplied) followed by the non-ID columns in order; every earlier
ID-named spec is dropped rather than rejected. -/
theorem create_table_last_id_wins (m : Metadata) (t : String)
    (cols : List String) (m2 : Metadata)
    (h : PrimitiveDb.create_table m t cols = .ok m2) :
    alistGet m2 t =
      some (((cols.filter (fun c => PrimitiveDb.isIdSpec c)).getLast?.getD "ID:int") ::
        cols.filter (fun c => !PrimitiveDb.isIdSpec c)) :=
  PrimitiveDb.create_table_ok_shape m t cols m2 h

/-- C10 witness: two ID-named specs (`id:int`, then `ID:str`): the resulting
schema is `[ID:str, name:str]` — the earlier `id:int` is silently dropped. -/
theorem create_table_last_id_wins_witness :
    alistGet [("t", ["ID:str", "name:str"])] "t" =
      some (((["id:int", "ID:str", "name:str"].filter
          (fun c => PrimitiveDb.isIdSpec c)).getLast?.getD "ID:int") ::
        ["id:int", "ID:str", "name:str"].filter
          (fun c => !PrimitiveDb.isIdSpec c)) :=
  create_table_last_id_wins [] "t" ["id:int", "ID:str", "name:str"]
    [("t", ["ID:str", "name:str"])] (by decide)

/-- C3 counterexample: a successful `insert` into an existing (empty) row
list leaves the caller's list holding the appended record — the argument is
mutated in place, not copied, contradicting the no-mutation half of the
claim. -/
theorem insert_mutates_input_rows :
    (PrimitiveDb.insert [("users", ["ID:int", "name:str"])] "users" ["Ann"]
        (some [])).2 =
      some [Entry.record [("ID", Value.int 1), ("name", Value.str "Ann")]] ∧
    some [Entry.record [("ID", Value.int 1), ("name", Value.str "Ann")]] ≠
      some ([] : List Entry) :=
  ⟨by decide, by decide⟩

/-- C3 (amended): a successful `insert` returns the existing row collection
with the new record appended, and the collection passed in is extended in
place: after the call the caller's argument holds exactly the returned
collection. -/
theorem insert_appends_in_place (m : Metadata) (t : String) (vs : List String)
    (td res : List Entry) (post : Option (List Entry))
    (h : PrimitiveDb.insert m t vs (some td) = (.ok res, post)) :
    (∃ r, res = td ++ [Entry.record r]) ∧ post = some res := by
  rcases PrimitiveDb.insert_shape m t vs (some td) with ⟨e, he⟩ |
    ⟨cl, cols, nid, rec, _, _, _, _, heq⟩
  · rw [he] at h
    simp at h
  · rw [heq] at h
    dsimp only at h
    rw [Prod.mk.injEq] at h
    obtain ⟨h1, h2⟩ := h
    injection h1 with h1
    refine ⟨⟨rec, h1.symm⟩, ?_⟩
    rw [← h2, h1]

/-- C3 witness: instantiates the in-place append theorem on a singleton
insert into an empty collection. -/
theorem insert_appends_in_place_witness :
    (∃ r, [Entry.record [("ID", Value.int 1), ("name", Value.str "Ann")]] =
      ([] : List Entry) ++ [Entry.record r]) ∧
    (some [Entry.record [("ID", Value.int 1), ("name", Value.str "Ann")]] :
        Option (List Entry)) =
      some [Entry.record [("ID", Value.int 1), ("name", Value.str "Ann")]] :=
  insert_appends_in_place [("users", ["ID:int", "name:str"])] "users" ["Ann"]
    [] [Entry.record [("ID", Value.int 1), ("name", Value.str "Ann")]]
    (some [Entry.record [("ID", Value.int 1), ("name", Value.str "Ann")]])
    (by decide)

/-- C4: when casting any supplied value against its column's declared type
fails, `insert` reports an error and the caller's row collection is exactly
what it was before the call; no record is appended. -/
theorem insert_all_or_nothing (m : Metadata) (t : String) (vs : List String)
    (td : Option (List Entry)) (cl : List String)
    (cols : List (String × String))
    (hg : alistGet m t = some cl)
    (hb : PrimitiveDb.buildColumnsAux cl [] = .ok cols)
    (hfail : ∃ p ∈ (cols.drop 1).zip vs, ∃ e, type_casting p.1.2 p.2 = .error e) :
    (∃ e, (PrimitiveDb.insert m t vs td).1 = .error e) ∧
    (PrimitiveDb.insert m t vs td).2 = td := by
  rcases PrimitiveDb.insert_shape m t vs td with ⟨e, he⟩ |
    ⟨cl2, cols2, nid, rec, hg2, hb2, hn2, hr2, heq⟩
  · rw [he]
    exact ⟨⟨e, rfl⟩, rfl⟩
  · rw [hg] at hg2
    injection hg2 with hg2
    subst hg2
    rw [hb] at hb2
    injection hb2 with hb2
    subst hb2
    obtain ⟨e2, he2⟩ := PrimitiveDb.buildRecord_error_of_mem _ _ hfail
    rw [he2] at hr2
    exact Except.noConfusion hr2

/-- C4 witness: inserting the non-numeric value `abc` into an `int` column
errors out and leaves the (empty) row collection untouched. -/
theorem insert_all_or_nothing_witness :
    (∃ e, (PrimitiveDb.insert [("users", ["ID:int", "age:int"])] "users"
      ["abc"] (some [])).1 = .error e) ∧
    (PrimitiveDb.insert [("users", ["ID:int", "age:int"])] "users"
      ["abc"] (some [])).2 = some [] :=
  insert_all_or_nothing [("users", ["ID:int", "age:int"])] "users" ["abc"]
    (some []) ["ID:int", "age:int"] [("ID", "int"), ("age", "int")]
    (by decide) (by decide)
    ⟨(("age", "int"), "abc"), by decide, DbError.invalidValue, by decide⟩
example : PrimitiveDb.create_table [] "t" ["ID:str"] = .ok [("t", ["ID:str"])] := by decide
example :
    PrimitiveDb.create_table [] "t" ["id:int", "ID:str", "name:str"] =
      .ok [("t", ["ID:str", "name:str"])] := by decide
example :
    PrimitiveDb.insert [("users", ["ID:int", "name:str"])] "users" ["Ann"] (some []) =
      (.ok [Entry.record [("ID", .int 1), ("name", .str "Ann")]],
       some [Entry.record [("ID", .int 1), ("name", .str "Ann")]]) := by decide
example :
    PrimitiveDb.insert [("users", ["ID:int", "age:int"])] "users" ["abc"] (some []) =
      (.error .invalidValue, some []) := by decide
example :
    PrimitiveDb.delete
      [Entry.record [("ID", .int 1)], Entry.record [("ID", .int 2)]]
      [("ID", .int 2)] = [Entry.record [("ID", .int 1)]] := by decide
example :
    PrimitiveDb.parse_set_clause ["set", "age", "=", "5"] 0
      [("users", ["ID:int", "age:int"])] "users" = .error .missingWhere := by decide

/-- C5 counterexample: with rows holding IDs 1 and 2, deleting the ID-2 row
and then inserting assigns the new record the identity 2 — the identity
freed by the delete is reassigned by the next insert. -/
theorem insert_reuses_deleted_id :
    PrimitiveDb.delete
        [Entry.record [("ID", Value.int 1), ("name", Value.str "Ann")],
         Entry.record [("ID", Value.int 2), ("name", Value.str "Bo")]]
        [("ID", Value.int 2)] =
      [Entry.record [("ID", Value.int 1), ("name", Value.str "Ann")]] ∧
    PrimitiveDb.insert [("users", ["ID:int", "name:str"])] "users" ["Cy"]
        (some [Entry.record [("ID", Value.int 1), ("name", Value.str "Ann")]]) =
      (.ok [Entry.record [("ID", Value.int 1), ("name", Value.str "Ann")],
            Entry.record [("ID", Value.int 2), ("name", Value.str "Cy")]],
       some [Entry.record [("ID", Value.int 1), ("name", Value.str "Ann")],
             Entry.record [("ID", Value.int 2), ("name", Value.str "Cy")]]) :=
  ⟨by decide, by decide⟩

/-- C5 (amended): on rows whose entries all carry integer identities, a
successful `insert` appends one record whose identity is 1 for an empty
collection and otherwise one more than the maximum existing identity (an
identity attained by some row, bounding all others).  Because only the
current maximum matters, an identity freed by a delete can be reassigned. -/
theorem insert_id_assignment (m : Metadata) (t : String) (vs : List String)
    (td res : List Entry) (post : Option (List Entry))
    (cl : List String) (cols : List (String × String))
    (hg : alistGet m t = some cl)
    (hb : PrimitiveDb.buildColumnsAux cl [] = .ok cols)
    (hnc : ∀ q ∈ cols.drop 1, (q.1 == "ID") = false)
    (hwf : ∀ e ∈ td, (PrimitiveDb.entryIdInt e).isSome = true)
    (h : PrimitiveDb.insert m t vs (some td) = (.ok res, post)) :
    ∃ r n, res = td ++ [Entry.record r] ∧
      PrimitiveDb.entryIdInt (Entry.record r) = some n ∧
      (td = [] → n = 1) ∧
      (td ≠ [] → (∃ e ∈ td, PrimitiveDb.entryIdInt e = some (n - 1)) ∧
        ∀ e ∈ td, ∀ k : Int, PrimitiveDb.entryIdInt e = some k → k ≤ n - 1) := by
  rcases PrimitiveDb.insert_shape m t vs (some td) with ⟨e, he⟩ |
    ⟨cl2, cols2, nid, rec, hg2, hb2, hn2, hr2, heq⟩
  · rw [he] at h
    simp at h
  · rw [hg] at hg2
    injection hg2 with hg2
    subst hg2
    rw [hb] at hb2
    injection hb2 with hb2
    subst hb2
    rw [heq] at h
    dsimp only at h
    rw [Prod.mk.injEq] at h
    obtain ⟨h1, _⟩ := h
    injection h1 with h1
    have hpres := PrimitiveDb.buildRecord_preserves ((cols.drop 1).zip vs)
      [("ID", Value.int nid)] rec "ID"
      (fun q hq => hnc q.1 (List.of_mem_zip hq).1) hr2
    have hrid : alistGet rec "ID" = some (Value.int nid) := by
      rw [hpres]; rfl
    have hspec := PrimitiveDb.newIdCalc_spec td hwf nid hn2
    refine ⟨rec, nid, h1.symm, ?_, hspec.1, hspec.2⟩
    simp [PrimitiveDb.entryIdInt, hrid]

/-- C5 witness: inserting into a collection whose maximum identity is 1
appends a record with identity 2 = max + 1. -/
theorem insert_id_assignment_witness :
    ∃ r n,
      [Entry.record [("ID", Value.int 1), ("name", Value.str "Ann")],
       Entry.record [("ID", Value.int 2), ("name", Value.str "Bo")]] =
        [Entry.record [("ID", Value.int 1), ("name", Value.str "Ann")]] ++
          [Entry.record r] ∧
      PrimitiveDb.entryIdInt (Entry.record r) = some n ∧
      ([Entry.record [("ID", Value.int 1), ("name", Value.str "Ann")]] =
          ([] : List Entry) → n = 1) ∧
      ([Entry.record [("ID", Value.int 1), ("name", Value.str "Ann")]] ≠
          ([] : List Entry) →
        (∃ e ∈ [Entry.record [("ID", Value.int 1), ("name", Value.str "Ann")]],
          PrimitiveDb.entryIdInt e = some (n - 1)) ∧
        ∀ e ∈ [Entry.record [("ID", Value.int 1), ("name", Value.str "Ann")]],
          ∀ k : Int, PrimitiveDb.entryIdInt e = some k → k ≤ n - 1) :=
  insert_id_assignment [("users", ["ID:int", "name:str"])] "users" ["Bo"]
    [Entry.record [("ID", Value.int 1), ("name", Value.str "Ann")]]
    [Entry.record [("ID", Value.int 1), ("name", Value.str "Ann")],
     Entry.record [("ID", Value.int 2), ("name", Value.str "Bo")]]
    (some [Entry.record [("ID", Value.int 1), ("name", Value.str "Ann")],
           Entry.record [("ID", Value.int 2), ("name", Value.str "Bo")]])
    ["ID:int", "name:str"] [("ID", "int"), ("name", "str")]
    (by decide) (by decide) (by decide) (by decide) (by decide)

lemma pyEq_none_left (v : Value) (hv : v ≠ Value.none) :
    pyEq Value.none v = false := by
  cases v with
  | str s => rfl
  | int n => rfl
  | bool b => rfl
  | none => exact absurd rfl hv

lemma matchesWhere_eq_present (r : PyDict) :
    ∀ w : PyDict, (∀ kv ∈ w, kv.2 ≠ Value.none) →
      matchesWhere r w =
        w.all (fun kv =>
          ((alistGet r kv.1).map (fun v => pyEq v kv.2)).getD false) := by
  intro w
  induction w with
  | nil => intro _; rfl
  | cons kv rest ih =>
    intro hw
    unfold matchesWhere at ih ⊢
    rw [List.all_cons, List.all_cons, ih (fun x hx => hw x (List.mem_cons_of_mem _ hx))]
    congr 1
    cases halist : alistGet r kv.1 with
    | none =>
      dsimp only [Option.getD, Option.map]
      rw [pyEq_none_left kv.2 (hw kv (List.mem_cons_self _ _))]
    | some v => rfl

lemma selectLoop_eq_filter (w : PyDict) (hw : ∀ kv ∈ w, kv.2 ≠ Value.none) :
    ∀ td : List Entry, PrimitiveDb.selectLoop td w = td.filter (fun e =>
      match e with
      | Entry.record r =>
        w.all (fun kv => ((alistGet r kv.1).map (fun v => pyEq v kv.2)).getD false)
      | Entry.notDict _ => false) := by
  intro td
  induction td with
  | nil => rfl
  | cons e rest ih =>
    cases e with
    | notDict v =>
      simp only [PrimitiveDb.selectLoop, List.filter_cons]
      simpa using ih
    | record r =>
      simp only [PrimitiveDb.selectLoop, List.filter_cons]
      have heq := matchesWhere_eq_present r w hw
      by_cases hm : matchesWhere r w = true
      · rw [if_pos hm, if_pos (heq ▸ hm), ih]
      · rw [if_neg hm, if_neg (fun hc => hm (heq.symm ▸ hc)), ih]

/-- C6: `select` with no predicate returns the row collection unchanged;
with a predicate (of proper scalar values, per the spec's data model) it
returns, in order, exactly the dict entries in which every predicate key is
present with an equal value, silently skipping non-dict entries. -/
theorem select_spec (td : List Entry) (w : PyDict)
    (hw : ∀ kv ∈ w, kv.2 ≠ Value.none) :
    PrimitiveDb.select td Option.none = td ∧
    PrimitiveDb.select td (some w) =
      td.filter (fun e =>
        match e with
        | Entry.record r =>
          w.all (fun kv => ((alistGet r kv.1).map (fun v => pyEq v kv.2)).getD false)
        | Entry.notDict _ => false) := by
  constructor
  · cases td <;> rfl
  · exact selectLoop_eq_filter w hw td

/-- C6 witness: a predicate on `age` keeps exactly the matching record,
skips the non-dict entry, and the no-predicate select is the identity. -/
theorem select_spec_witness :
    PrimitiveDb.select
        [Entry.record [("ID", Value.int 1), ("age", Value.int 28)],
         Entry.notDict (Value.str "junk"),
         Entry.record [("ID", Value.int 2), ("age", Value.int 30)]]
        Option.none =
      [Entry.record [("ID", Value.int 1), ("age", Value.int 28)],
       Entry.notDict (Value.str "junk"),
       Entry.record [("ID", Value.int 2), ("age", Value.int 30)]] ∧
    PrimitiveDb.select
        [Entry.record [("ID", Value.int 1), ("age", Value.int 28)],
         Entry.notDict (Value.str "junk"),
         Entry.record [("ID", Value.int 2), ("age", Value.int 30)]]
        (some [("age", Value.int 28)]) =
      ([Entry.record [("ID", Value.int 1), ("age", Value.int 28)],
        Entry.notDict (Value.str "junk"),
        Entry.record [("ID", Value.int 2), ("age", Value.int 30)]].filter (fun e =>
        match e with
        | Entry.record r =>
          [("age", Value.int 28)].all (fun kv =>
            ((alistGet r kv.1).map (fun v => pyEq v kv.2)).getD false)
        | Entry.notDict _ => false)) :=
  select_spec
    [Entry.record [("ID", Value.int 1), ("age", Value.int 28)],
     Entry.notDict (Value.str "junk"),
     Entry.record [("ID", Value.int 2), ("age", Value.int 30)]]
    [("age", Value.int 28)] (by decide)

lemma updateLoop_eq_map (s w : PyDict) :
    ∀ td : List Entry, PrimitiveDb.updateLoop td s w = td.map (fun e =>
      match e with
      | Entry.record r =>
        if matchesWhere r w then Entry.record (dictUpdate r s) else Entry.record r
      | Entry.notDict v => Entry.notDict v) := by
  intro td
  induction td with
  | nil => rfl
  | cons e rest ih =>
    cases e with
    | notDict v =>
      simp only [PrimitiveDb.updateLoop, List.map_cons]
      rw [ih]
    | record r =>
      simp only [PrimitiveDb.updateLoop, List.map_cons]
      rw [ih]

lemma alistGet_dictUpdate :
    ∀ s : PyDict, (s.map Prod.fst).Nodup →
      ∀ (r : PyDict) (k : String),
        alistGet (dictUpdate r s) k =
          match alistGet s k with
          | some v => some v
          | Option.none => alistGet r k := by
  intro s
  induction s with
  | nil => intro _ r k; rfl
  | cons kv rest ih =>
    intro hnd r k
    obtain ⟨hnotin, hnd2⟩ := List.nodup_cons.mp hnd
    show alistGet (dictUpdate (alistSet r kv.1 kv.2) rest) k = _
    rw [ih hnd2 (alistSet r kv.1 kv.2) k]
    by_cases hk : (kv.1 == k) = true
    · have hkeq : kv.1 = k := by simpa using hk
      have hrest : alistGet rest k = Option.none := by
        unfold alistGet
        rw [List.find?_eq_none.mpr ?_]
        · rfl
        · intro x hx hpx
          apply hnotin
          have hxk : x.1 = k := by simpa using hpx
          rw [← hkeq] at hxk
          rw [← hxk]
          exact List.mem_map_of_mem Prod.fst hx
      have hhead : alistGet (kv :: rest) k = some kv.2 := by
        unfold alistGet
        rw [List.find?_cons_of_pos (p := fun x : String × Value => x.1 == k) _ hk]
        rfl
      rw [hrest, hhead]
      dsimp only
      rw [hkeq]
      exact PrimitiveDb.alistGet_set_self r k kv.2
    · have hset : alistGet (alistSet r kv.1 kv.2) k = alistGet r k :=
        PrimitiveDb.alistGet_set_ne r kv.1 k kv.2 (by simpa using hk)
      have hhead : alistGet (kv :: rest) k = alistGet rest k := by
        unfold alistGet
        rw [List.find?_cons_of_neg (p := fun x : String × Value => x.1 == k) _ hk]
      rw [hset, hhead]

/-- C7: `update` of an empty collection is empty; otherwise each matching
dict entry is replaced by a shallow merge (set-clause fields override the
original fields, everything else is kept) and every other entry passes
through unchanged, in order.  The final conjunct characterizes the merge:
lookup prefers the set-clause value, falling back to the original record. -/
theorem update_spec (td : List Entry) (s w : PyDict)
    (hnd : (s.map Prod.fst).Nodup) :
    PrimitiveDb.update ([] : List Entry) s w = [] ∧
    PrimitiveDb.update td s w =
      td.map (fun e =>
        match e with
        | Entry.record r =>
          if matchesWhere r w then Entry.record (dictUpdate r s) else Entry.record r
        | Entry.notDict v => Entry.notDict v) ∧
    ∀ (r : PyDict) (k : String),
      alistGet (dictUpdate r s) k =
        match alistGet s k with
        | some v => some v
        | Option.none => alistGet r k := by
  refine ⟨rfl, ?_, fun r k => alistGet_dictUpdate s hnd r k⟩
  cases td with
  | nil => rfl
  | cons e rest => exact updateLoop_eq_map s w (e :: rest)

/-- C7 witness: updating `age` where `name = Ann` rewrites only the matching
record and the merge lookup prefers the set-clause value. -/
theorem update_spec_witness :
    PrimitiveDb.update ([] : List Entry) [("age", Value.int 29)]
        [("name", Value.str "Ann")] = [] ∧
    PrimitiveDb.update
        [Entry.record [("ID", Value.int 1), ("name", Value.str "Ann"),
          ("age", Value.int 28)],
         Entry.record [("ID", Value.int 2), ("name", Value.str "Bo"),
          ("age", Value.int 30)]]
        [("age", Value.int 29)] [("name", Value.str "Ann")] =
      ([Entry.record [("ID", Value.int 1), ("name", Value.str "Ann"),
          ("age", Value.int 28)],
        Entry.record [("ID", Value.int 2), ("name", Value.str "Bo"),
          ("age", Value.int 30)]].map (fun e =>
        match e with
        | Entry.record r =>
          if matchesWhere r [("name", Value.str "Ann")] then
            Entry.record (dictUpdate r [("age", Value.int 29)])
          else Entry.record r
        | Entry.notDict v => Entry.notDict v)) ∧
    ∀ (r : PyDict) (k : String),
      alistGet (dictUpdate r [("age", Value.int 29)]) k =
        match alistGet [("age", Value.int 29)] k with
        | some v => some v
        | Option.none => alistGet r k :=
  update_spec
    [Entry.record [("ID", Value.int 1), ("name", Value.str "Ann"),
      ("age", Value.int 28)],
     Entry.record [("ID", Value.int 2), ("name", Value.str "Bo"),
      ("age", Value.int 30)]]
    [("age", Value.int 29)] [("name", Value.str "Ann")] (by decide)

lemma deleteLoop_eq_filter (w : PyDict) :
    ∀ td : List Entry,
      PrimitiveDb.deleteLoop td w = td.filter (fun e => !entryMatches e w) := by
  intro td
  induction td with
  | nil => rfl
  | cons e rest ih =>
    cases e with
    | notDict v =>
      have hcond : (!entryMatches (Entry.notDict v) w) = true := rfl
      simp only [PrimitiveDb.deleteLoop, List.filter_cons, hcond, if_true]
      rw [ih]
    | record r =>
      have hcond : (!entryMatches (Entry.record r) w) = !matchesWhere r w := rfl
      simp only [PrimitiveDb.deleteLoop, List.filter_cons, hcond]
      cases hm : matchesWhere r w
      all_goals simp [ih]

lemma delete_eq_filter (td : List Entry) (w : PyDict) :
    PrimitiveDb.delete td w = td.filter (fun e => !entryMatches e w) := by
  cases td with
  | nil => rfl
  | cons e rest => exact deleteLoop_eq_filter w (e :: rest)

/-- C8: `delete` with a predicate matching no entry returns the collection
unchanged, and `delete` is idempotent: deleting twice with the same
predicate equals deleting once. -/
theorem delete_idempotent (td : List Entry) (w : PyDict) :
    ((∀ e ∈ td, entryMatches e w = false) → PrimitiveDb.delete td w = td) ∧
    PrimitiveDb.delete (PrimitiveDb.delete td w) w = PrimitiveDb.delete td w := by
  constructor
  · intro h
    rw [delete_eq_filter]
    exact List.filter_eq_self.mpr (fun e he => by simp [h e he])
  · have h1 := delete_eq_filter td w
    rw [h1, delete_eq_filter]
    exact List.filter_eq_self.mpr (fun e he => by simpa using List.of_mem_filter he)

/-- C8 witness: a predicate matching no record leaves the collection equal
to the input, and a second delete is a no-op. -/
theorem delete_idempotent_witness :
    PrimitiveDb.delete [Entry.record [("ID", Value.int 1)]]
        [("ID", Value.int 2)] = [Entry.record [("ID", Value.int 1)]] ∧
    PrimitiveDb.delete
        (PrimitiveDb.delete [Entry.record [("ID", Value.int 1)]]
          [("ID", Value.int 2)]) [("ID", Value.int 2)] =
      PrimitiveDb.delete [Entry.record [("ID", Value.int 1)]]
        [("ID", Value.int 2)] :=
  ⟨(delete_idempotent [Entry.record [("ID", Value.int 1)]]
      [("ID", Value.int 2)]).1 (by decide),
   (delete_idempotent [Entry.record [("ID", Value.int 1)]]
      [("ID", Value.int 2)]).2⟩

lemma findWhereAux_none :
    ∀ (l : List String) (i : Nat), (∀ p ∈ l, pyLower p ≠ "where") →
      PrimitiveDb.findWhereAux l i = Option.none := by
  intro l
  induction l with
  | nil => intro i _; rfl
  | cons p rest ih =>
    intro i h
    simp only [PrimitiveDb.findWhereAux]
    rw [if_neg (h p (List.mem_cons_self _ _))]
    exact ih (i + 1) (fun q hq => h q (List.mem_cons_of_mem _ hq))

/-- C9: when the token at the set position is (case-insensitively) `set` and
no later token case-insensitively equals `where`, `parse_set_clause` fails
with the missing-where error; a set clause without a where clause is never
accepted. -/
theorem parse_set_requires_where (parts : List String) (start_idx : Nat)
    (m : Metadata) (t : String)
    (h1 : start_idx < parts.length)
    (h2 : pyLower (parts.getD start_idx "") = "set")
    (h3 : ∀ p ∈ parts.drop (start_idx + 1), pyLower p ≠ "where") :
    PrimitiveDb.parse_set_clause parts start_idx m t = .error .missingWhere := by
  unfold PrimitiveDb.parse_set_clause
  rw [if_neg (by push_neg; exact ⟨h1, h2⟩)]
  rw [findWhereAux_none _ _ h3]

/-- C9 witness: `set age = 5` with no `where` token is rejected with the
missing-where error. -/
theorem parse_set_requires_where_witness :
    PrimitiveDb.parse_set_clause ["set", "age", "=", "5"] 0
      [("users", ["ID:int", "age:int"])] "users" = .error .missingWhere :=
  parse_set_requires_where ["set", "age", "=", "5"] 0
    [("users", ["ID:int", "age:int"])] "users"
    (by decide) (by decide) (by decide)
